import Mathlib

/-!
# Verification of the go-tika client library

Shallow embedding of the google/go-tika repository (Go) and proofs about it.

The embedding covers:
* the recursive-metadata normalization (`MetaRecursive`) and the
  recursive-parse convenience (`ParseRecursive`) from `src/tika/tika.go`;
* the HTTP request primitive `call` from `src/tika/tika.go` (state-passing,
  since it lazily replaces a nil `httpClient`), and the spec-described
  `ClientError`-producing call of the context-based client generation whose
  implementation is absent from `src/` (only its tests are present);
* the readiness poller `waitForStart` (ticker-based generation,
  `src/unnamed/part_001` lines 97-111);
* the launcher `Start` (context-cancelling generation,
  `src/unnamed/part_003` lines 111-136);
* `DownloadServer` and `validateFileMD5` from `src/tika/server.go`.

Machine integers do not overflow in any of the embedded code paths
(HTTP status codes, list lengths), so `Nat`/`Int` are used directly.
Go errors are embedded as `Except` values carrying either the structured
data the code puts into the error (`MetaError`) or the formatted message
string built by `fmt.Errorf`.
-/

namespace GoTika

/-! ## JSON values

Models the result of `json.Unmarshal` into `interface{}`: Go produces
`string`, `float64`, `bool`, `nil`, `[]interface{}` and
`map[string]interface{}`. Objects are association lists, preserving an
iteration order (Go map iteration order is unspecified; the embedding
fixes it to insertion order, a legitimate determinization). Numbers are
carried as `Int`: the numeric value is never inspected by the embedded
code, which only branches on the dynamic type. -/

inductive JsonValue where
  | str (s : String)
  | num (x : Int)
  | boolean (b : Bool)
  | null
  | arr (elems : List JsonValue)
  | obj (fields : List (String × JsonValue))
deriving Repr

/-- Association-list lookup, modelling a read `m[k]` of a Go map that
distinguishes present and absent keys (`v, ok := m[k]`). -/
def assocLookup {β : Type} : List (String × β) → String → Option β
  | [], _ => none
  | (k2, v) :: rest, k => if k2 == k then some v else assocLookup rest k

/-! ## MetaRecursive normalization (src/tika/tika.go lines 185-219)

`MetaRecursive` issues the HTTP request, unmarshals the body into
`[]map[string]interface{}`, and then normalizes that value.  The
embedding starts after `json.Unmarshal`: the input is the list of
documents, each an association list of fields. -/

/-- The structured content of the error built at src/tika/tika.go lines
210 and 214: `fmt.Errorf("field %q has value %v and type %v, expected a
string or []string", k, v, reflect.TypeOf(v))`. It records the offending
field name and its value. -/
structure MetaError where
  field : String
  value : JsonValue
deriving Repr

/-- Models `reflect.TypeOf(v)` rendered with `%v` for the dynamic types
`json.Unmarshal` can produce. -/
def typeName : JsonValue → String
  | .str _ => "string"
  | .num _ => "float64"
  | .boolean _ => "bool"
  | .null => "<nil>"
  | .arr _ => "[]interface \x7b\x7d"
  | .obj _ => "map[string]interface \x7b\x7d"

mutual

/-- Models Go's `%v` rendering of an unmarshalled JSON value (strings
bare, slices space-separated in brackets, maps as `map[k:v ...]`).
Numeric formatting is approximated through `Int`. -/
def renderValue : JsonValue → String
  | .str s => s
  | .num n => toString n
  | .boolean b => toString b
  | .null => "<nil>"
  | .arr xs => "[" ++ String.intercalate " " (renderList xs) ++ "]"
  | .obj fs => "map[" ++ String.intercalate " " (renderFields fs) ++ "]"

def renderList : List JsonValue → List String
  | [] => []
  | x :: xs => renderValue x :: renderList xs

def renderFields : List (String × JsonValue) → List String
  | [] => []
  | (k, v) :: xs => (k ++ ":" ++ renderValue v) :: renderFields xs

end

/-- The message of the Go error value: `fmt.Errorf("field %q has value %v
and type %v, expected a string or []string", k, v, reflect.TypeOf(v))`. -/
def MetaError.message (e : MetaError) : String :=
  "field \"" ++ e.field ++ "\" has value " ++ renderValue e.value ++
    " and type " ++ typeName e.value ++ ", expected a string or []string"

/-- The inner loop over a `[]interface{}` value (src/tika/tika.go lines
204-212): collect the elements in order, requiring each to be a string;
a non-string element aborts with the error naming field `k` and the whole
array value `v`. -/
def collectStrings (k : String) (v : JsonValue) : List JsonValue → Except MetaError (List String)
  | [] => .ok []
  | .str s :: rest =>
    match collectStrings k v rest with
    | .ok tail => .ok (s :: tail)
    | .error e => .error e
  | _ :: _ => .error ⟨k, v⟩

/-- The per-field `switch v.(type)` of src/tika/tika.go lines 200-215:
a string wraps into a one-element list, an array goes through
`collectStrings`, anything else is the error naming the field. -/
def normalizeField (k : String) (v : JsonValue) : Except MetaError (List String) :=
  match v with
  | .str s => .ok [s]
  | .arr elems => collectStrings k v elems
  | _ => .error ⟨k, v⟩

/-- The per-document loop of src/tika/tika.go lines 199-216: build the
normalized document field by field, aborting on the first bad field. -/
def normalizeDoc : List (String × JsonValue) → Except MetaError (List (String × List String))
  | [] => .ok []
  | (k, v) :: rest =>
    match normalizeField k v with
    | .error e => .error e
    | .ok xs =>
      match normalizeDoc rest with
      | .error e => .error e
      | .ok tail => .ok ((k, xs) :: tail)

/-- The outer loop of src/tika/tika.go lines 196-217 over the unmarshalled
documents, in document order. On any field error `MetaRecursive` returns
`nil, err`, discarding all accumulated output. -/
def metaRecursive : List (List (String × JsonValue)) → Except MetaError (List (List (String × List String)))
  | [] => .ok []
  | d :: rest =>
    match normalizeDoc d with
    | .error e => .error e
    | .ok doc =>
      match metaRecursive rest with
      | .error e => .error e
      | .ok tail => .ok (doc :: tail)

/-! ## ParseRecursive (src/tika/tika.go lines 133-145) -/

/-- The metadata field of the content of a file (src/tika/tika.go line 86). -/
def XTIKAContent : String := "X-TIKA:content"

/-- Models the Go map read `d[XTIKAContent]`: an absent key yields the nil
slice, i.e. the empty list. -/
def getField (d : List (String × List String)) (k : String) : List String :=
  (assocLookup d k).getD []

/-- The loop body of src/tika/tika.go lines 139-143: a document
contributes `content[0]` when `len(content) > 0`, and nothing otherwise. -/
def contentOf (d : List (String × List String)) : Option String :=
  match getField d XTIKAContent with
  | [] => none
  | c :: _ => some c

/-- `ParseRecursive` (src/tika/tika.go lines 133-145): normalize via
`MetaRecursive`, then collect one content string per document that has a
non-empty content list. -/
def parseRecursive (docs : List (List (String × JsonValue))) : Except MetaError (List String) :=
  match metaRecursive docs with
  | .error e => .error e
  | .ok m => .ok (m.filterMap contentOf)

/-! ## Shape predicates and the spec-side normal form -/

/-- Is this value a JSON string? (the accepted array element shape). -/
def isStringValue : JsonValue → Bool
  | .str _ => true
  | _ => false

/-- The shapes the normalization accepts for a field value: a string, or
an array all of whose elements are strings. -/
def wellFormedValue : JsonValue → Bool
  | .str _ => true
  | .arr xs => xs.all isStringValue
  | _ => false

/-- The string carried by a string value. -/
def getStr : JsonValue → Option String
  | .str s => some s
  | _ => none

/-- The normal form the spec assigns to a well-formed field value: a
scalar string becomes the one-element list, an array of strings becomes
the same strings in the same order. -/
def normValue : JsonValue → List String
  | .str s => [s]
  | .arr xs => xs.filterMap getStr
  | _ => []

/-- The bad shapes enumerated by the spec: number, boolean, nested
object, or an array containing a non-string element. -/
def claimBadValue : JsonValue → Bool
  | .num _ => true
  | .boolean _ => true
  | .obj _ => true
  | .arr xs => !xs.all isStringValue
  | _ => false

/-! ## Normalization lemmas -/

/-- `collectStrings` succeeds with the strings in order exactly when every
element is a string; otherwise it fails naming field `k` and value `v`. -/
theorem collectStrings_eq (k : String) (v : JsonValue) (xs : List JsonValue) :
    collectStrings k v xs =
      if xs.all isStringValue then .ok (xs.filterMap getStr) else .error ⟨k, v⟩ := by
  induction xs with
  | nil => simp [collectStrings]
  | cons x rest ih =>
    cases x with
    | str s =>
      simp only [collectStrings, ih, List.all_cons, isStringValue, Bool.true_and,
        List.filterMap_cons, getStr]
      by_cases h : rest.all isStringValue = true <;> simp [h]
    | num n => simp [collectStrings, List.all_cons, isStringValue]
    | boolean b => simp [collectStrings, List.all_cons, isStringValue]
    | null => simp [collectStrings, List.all_cons, isStringValue]
    | arr es => simp [collectStrings, List.all_cons, isStringValue]
    | obj fs => simp [collectStrings, List.all_cons, isStringValue]

/-- A field normalizes to its spec-side normal form exactly when its value
is well formed; otherwise the error names that field and value. -/
theorem normalizeField_eq (k : String) (v : JsonValue) :
    normalizeField k v =
      if wellFormedValue v then .ok (normValue v) else .error ⟨k, v⟩ := by
  cases v with
  | str s => simp [normalizeField, wellFormedValue, normValue]
  | arr es => simp [normalizeField, wellFormedValue, normValue, collectStrings_eq]
  | num n => simp [normalizeField, wellFormedValue]
  | boolean b => simp [normalizeField, wellFormedValue]
  | null => simp [normalizeField, wellFormedValue]
  | obj fs => simp [normalizeField, wellFormedValue]

/-- On an all-well-formed document, `normalizeDoc` keeps every key in
order and maps each value to its normal form. -/
theorem normalizeDoc_ok (d : List (String × JsonValue))
    (h : ∀ kv ∈ d, wellFormedValue kv.2 = true) :
    normalizeDoc d = .ok (d.map (fun kv => (kv.1, normValue kv.2))) := by
  induction d with
  | nil => simp [normalizeDoc]
  | cons kv rest ih =>
    obtain ⟨k, v⟩ := kv
    have hv : wellFormedValue v = true := h (k, v) (List.mem_cons_self _ _)
    have hrest := ih (fun kv hkv => h kv (List.mem_cons_of_mem _ hkv))
    simp [normalizeDoc, normalizeField_eq, hv, hrest]

/-- A document containing an ill-formed field makes `normalizeDoc` fail,
and the reported error names a field of that document whose value is
ill-formed. -/
theorem normalizeDoc_err (d : List (String × JsonValue))
    (h : ∃ kv ∈ d, wellFormedValue kv.2 = false) :
    ∃ e, normalizeDoc d = .error e ∧ (e.field, e.value) ∈ d ∧
      wellFormedValue e.value = false := by
  induction d with
  | nil => simp at h
  | cons kv rest ih =>
    obtain ⟨k, v⟩ := kv
    by_cases hv : wellFormedValue v = true
    · have hrest : ∃ kv ∈ rest, wellFormedValue kv.2 = false := by
        rcases h with ⟨kv2, hmem, hbad⟩
        rcases List.mem_cons.mp hmem with heq | hmem2
        · subst heq
          exact absurd hv (by simp at hbad; simp [hbad])
        · exact ⟨kv2, hmem2, hbad⟩
      obtain ⟨e, he, hmem, hbad⟩ := ih hrest
      refine ⟨e, ?_, List.mem_cons_of_mem _ hmem, hbad⟩
      simp [normalizeDoc, normalizeField_eq, hv, he]
    · refine ⟨⟨k, v⟩, ?_, List.mem_cons_self _ _, by simpa using hv⟩
      simp [normalizeDoc, normalizeField_eq, hv]

/-- Inversion: a successful `normalizeDoc` means every field was well
formed and the output is the pointwise normal form. -/
theorem normalizeDoc_ok_inv (d : List (String × JsonValue))
    (nd : List (String × List String)) (h : normalizeDoc d = .ok nd) :
    (∀ kv ∈ d, wellFormedValue kv.2 = true) ∧
      nd = d.map (fun kv => (kv.1, normValue kv.2)) := by
  induction d generalizing nd with
  | nil => simp [normalizeDoc] at h; simp [h]
  | cons kv rest ih =>
    obtain ⟨k, v⟩ := kv
    by_cases hv : wellFormedValue v = true
    · simp only [normalizeDoc, normalizeField_eq, hv, if_true] at h
      cases hrest : normalizeDoc rest with
      | error e => rw [hrest] at h; exact absurd h (by simp)
      | ok tail =>
        rw [hrest] at h
        simp only [Except.ok.injEq] at h
        obtain ⟨hall, htail⟩ := ih tail hrest
        constructor
        · intro kv2 hmem
          rcases List.mem_cons.mp hmem with heq | hmem2
          · simpa [heq] using hv
          · exact hall kv2 hmem2
        · simp [← h, htail]
    · simp only [normalizeDoc, normalizeField_eq, hv, if_false] at h
      exact absurd h (by simp)

/-- On an all-well-formed input, `metaRecursive` succeeds with the
documents normalized pointwise, preserving document order. -/
theorem metaRecursive_ok (docs : List (List (String × JsonValue)))
    (h : ∀ d ∈ docs, ∀ kv ∈ d, wellFormedValue kv.2 = true) :
    metaRecursive docs =
      .ok (docs.map (fun d => d.map (fun kv => (kv.1, normValue kv.2)))) := by
  induction docs with
  | nil => simp [metaRecursive]
  | cons d rest ih =>
    have hd := normalizeDoc_ok d (h d (List.mem_cons_self _ _))
    have hrest := ih (fun d2 hd2 => h d2 (List.mem_cons_of_mem _ hd2))
    simp [metaRecursive, hd, hrest]

/-- Inversion: a successful `metaRecursive` means every field of every
document was well formed and the output is the pointwise normal form. -/
theorem metaRecursive_ok_inv (docs : List (List (String × JsonValue)))
    (m : List (List (String × List String))) (h : metaRecursive docs = .ok m) :
    (∀ d ∈ docs, ∀ kv ∈ d, wellFormedValue kv.2 = true) ∧
      m = docs.map (fun d => d.map (fun kv => (kv.1, normValue kv.2))) := by
  induction docs generalizing m with
  | nil => simp [metaRecursive] at h; simp [h]
  | cons d rest ih =>
    simp only [metaRecursive] at h
    cases hd : normalizeDoc d with
    | error e => rw [hd] at h; exact absurd h (by simp)
    | ok nd =>
      rw [hd] at h
      cases hrest : metaRecursive rest with
      | error e => rw [hrest] at h; exact absurd h (by simp)
      | ok tail =>
        rw [hrest] at h
        simp only [Except.ok.injEq] at h
        obtain ⟨hall, htail⟩ := ih tail hrest
        obtain ⟨hwf, hnd⟩ := normalizeDoc_ok_inv d nd hd
        constructor
        · intro d2 hmem
          rcases List.mem_cons.mp hmem with heq | hmem2
          · exact heq ▸ hwf
          · exact hall d2 hmem2
        · simp [← h, hnd, htail]

/-- If some document contains an ill-formed field, `metaRecursive` fails
and the error names an ill-formed field of one of the input documents. -/
theorem metaRecursive_err (docs : List (List (String × JsonValue)))
    (h : ∃ d ∈ docs, ∃ kv ∈ d, wellFormedValue kv.2 = false) :
    ∃ e, metaRecursive docs = .error e ∧
      (∃ d ∈ docs, (e.field, e.value) ∈ d) ∧ wellFormedValue e.value = false := by
  induction docs with
  | nil => simp at h
  | cons d rest ih =>
    by_cases hd : ∃ kv ∈ d, wellFormedValue kv.2 = false
    · obtain ⟨e, he, hmem, hbad⟩ := normalizeDoc_err d hd
      refine ⟨e, ?_, ⟨d, List.mem_cons_self _ _, hmem⟩, hbad⟩
      simp [metaRecursive, he]
    · have hall : ∀ kv ∈ d, wellFormedValue kv.2 = true := by
        intro kv hkv
        by_contra hc
        exact hd ⟨kv, hkv, by simpa using hc⟩
      have hrest : ∃ d2 ∈ rest, ∃ kv ∈ d2, wellFormedValue kv.2 = false := by
        rcases h with ⟨d2, hmem, hbad⟩
        rcases List.mem_cons.mp hmem with heq | hmem2
        · subst heq
          rcases hbad with ⟨kv, hkv, hb⟩
          exact absurd (hall kv hkv) (by simp [hb])
        · exact ⟨d2, hmem2, hbad⟩
      obtain ⟨e, he, ⟨d2, hmem2, hmem⟩, hbad⟩ := ih hrest
      refine ⟨e, ?_, ⟨d2, List.mem_cons_of_mem _ hmem2, hmem⟩, hbad⟩
      simp [metaRecursive, normalizeDoc_ok d hall, he]

/-- An array built from strings collects to exactly those strings. -/
theorem collectStrings_strings (k : String) (v : JsonValue) (ss : List String) :
    collectStrings k v (ss.map JsonValue.str) = .ok ss := by
  induction ss with
  | nil => rfl
  | cons s rest ih => simp [collectStrings, ih]

/-- `claimBadValue` shapes are exactly ill-formed shapes other than null. -/
theorem claimBad_not_wellFormed (v : JsonValue) (h : claimBadValue v = true) :
    wellFormedValue v = false := by
  cases v <;> simp_all [claimBadValue, wellFormedValue]

/-- Mapping the values of an association list maps through lookups. -/
theorem assocLookup_map {β γ : Type} (f : β → γ) (d : List (String × β)) (k : String) :
    assocLookup (d.map (fun kv => (kv.1, f kv.2))) k = (assocLookup d k).map f := by
  induction d with
  | nil => rfl
  | cons kv rest ih =>
    obtain ⟨k2, v⟩ := kv
    by_cases h : (k2 == k) = true <;> simp [assocLookup, h, ih]

/-- `filterMap` of a list whose `i`-th element is sent to `none` splits
into the contributions of the elements before and after it. -/
theorem filterMap_eq_of_none {α β : Type} (f : α → Option β) :
    ∀ (m : List α) (i : Nat) (hi : i < m.length), f (m.get ⟨i, hi⟩) = none →
      m.filterMap f = (m.take i).filterMap f ++ (m.drop (i + 1)).filterMap f
  | [], i, hi, _ => by simp at hi
  | x :: rest, 0, _, h => by
    simp only [List.get] at h
    simp [List.filterMap_cons, h]
  | x :: rest, i + 1, hi, h => by
    have hi2 : i < rest.length := by simpa using hi
    have ih := filterMap_eq_of_none f rest i hi2 (by simpa [List.get] using h)
    simp only [List.take_succ_cons, List.drop_succ_cons, List.filterMap_cons]
    cases f x <;> simp [ih]

/-! ## Claim theorems: normalization -/

/-- C1: on a JSON array of objects in which every field value is a string
or an array of strings, `MetaRecursive` returns a list of the same length
in the same document order, mapping each string value `v` to `[v]` and
each array of strings to the same strings in the same order; a scalar
string and the corresponding one-element array normalize identically. -/
theorem metaRecursive_normalizes_wellFormed (docs : List (List (String × JsonValue)))
    (h : ∀ d ∈ docs, ∀ kv ∈ d, wellFormedValue kv.2 = true) :
    metaRecursive docs =
      .ok (docs.map (fun d => d.map (fun kv => (kv.1, normValue kv.2)))) ∧
    (docs.map (fun d => d.map (fun kv => (kv.1, normValue kv.2)))).length = docs.length ∧
    (∀ k s, normalizeField k (.str s) = .ok [s] ∧
      normalizeField k (.arr [.str s]) = .ok [s]) ∧
    (∀ k ss, normalizeField k (.arr (ss.map JsonValue.str)) = .ok ss) := by
  refine ⟨metaRecursive_ok docs h, by simp, fun k s => ⟨rfl, rfl⟩, fun k ss => ?_⟩
  simpa [normalizeField] using collectStrings_strings k (.arr (ss.map JsonValue.str)) ss

/-- Witness for C1: the spec's example
`[{"X-TIKA:content":"a"},{"X-TIKA:content":"b"}]` normalizes to
`[{"X-TIKA:content":["a"]},{"X-TIKA:content":["b"]}]`. -/
theorem metaRecursive_normalizes_wellFormed_witness :
    (∀ d ∈ [[(XTIKAContent, JsonValue.str "a")], [(XTIKAContent, JsonValue.str "b")]],
      ∀ kv ∈ d, wellFormedValue kv.2 = true) ∧
    metaRecursive [[(XTIKAContent, JsonValue.str "a")], [(XTIKAContent, JsonValue.str "b")]] =
      .ok [[(XTIKAContent, ["a"])], [(XTIKAContent, ["b"])]] :=
  ⟨by decide, (metaRecursive_normalizes_wellFormed
    [[(XTIKAContent, JsonValue.str "a")], [(XTIKAContent, JsonValue.str "b")]] (by decide)).1⟩

/-- C2: an input containing a document with a field whose value is a
number, boolean, nested object, or array with a non-string element makes
`MetaRecursive` fail: the error names an offending field of some input
document (its quoted name appears in the message), and no normalized
result is returned. -/
theorem metaRecursive_badField_error (docs : List (List (String × JsonValue)))
    (h : ∃ d ∈ docs, ∃ kv ∈ d, claimBadValue kv.2 = true) :
    ∃ e, metaRecursive docs = .error e ∧
      (∃ d ∈ docs, ∃ v, (e.field, v) ∈ d ∧ wellFormedValue v = false) ∧
      (∃ pre post, e.message = pre ++ e.field ++ post) ∧
      (∀ out, metaRecursive docs ≠ .ok out) := by
  have hbad : ∃ d ∈ docs, ∃ kv ∈ d, wellFormedValue kv.2 = false := by
    obtain ⟨d, hd, kv, hkv, hb⟩ := h
    exact ⟨d, hd, kv, hkv, claimBad_not_wellFormed kv.2 hb⟩
  obtain ⟨e, he, ⟨d, hd, hmem⟩, hwf⟩ := metaRecursive_err docs hbad
  refine ⟨e, he, ⟨d, hd, e.value, hmem, hwf⟩, ⟨"field \"",
    "\" has value " ++ renderValue e.value ++ " and type " ++ typeName e.value ++
      ", expected a string or []string", ?_⟩, fun out hout => by simp [he] at hout⟩
  simp [MetaError.message, String.append_assoc]

/-- Witness for C2: a document with a numeric field is rejected. -/
theorem metaRecursive_badField_error_witness :
    (∃ d ∈ [[("k1", JsonValue.str "good"), ("bad", JsonValue.num 7)]],
      ∃ kv ∈ d, claimBadValue kv.2 = true) ∧
    (∃ e, metaRecursive [[("k1", JsonValue.str "good"), ("bad", JsonValue.num 7)]] = .error e ∧
      (∃ d ∈ [[("k1", JsonValue.str "good"), ("bad", JsonValue.num 7)]],
        ∃ v, (e.field, v) ∈ d ∧ wellFormedValue v = false) ∧
      (∃ pre post, e.message = pre ++ e.field ++ post) ∧
      (∀ out, metaRecursive [[("k1", JsonValue.str "good"), ("bad", JsonValue.num 7)]] ≠ .ok out)) :=
  ⟨by decide, metaRecursive_badField_error
    [[("k1", JsonValue.str "good"), ("bad", JsonValue.num 7)]] (by decide)⟩

/-! ## Claim theorems: ParseRecursive -/

/-- The reading of ParseRecursive asserted by the claim: each document
contributes its whole content list, concatenated in document order;
documents lacking the field contribute nothing. -/
def parseRecursiveConcat (docs : List (List (String × JsonValue))) : Except MetaError (List String) :=
  match metaRecursive docs with
  | .error e => .error e
  | .ok m => .ok (m.flatMap (fun d => getField d XTIKAContent))

/-- Counterexample to C3: on a document whose content list has two
elements, `ParseRecursive` (src/tika/tika.go line 141 appends only
`content[0]`) returns `["a"]`, not the concatenation `["a", "b"]` the
claim describes. -/
theorem parseRecursive_concat_counterexample :
    parseRecursive [[(XTIKAContent, JsonValue.arr [.str "a", .str "b"])]] = .ok ["a"] ∧
    parseRecursiveConcat [[(XTIKAContent, JsonValue.arr [.str "a", .str "b"])]] = .ok ["a", "b"] ∧
    (.ok ["a"] : Except MetaError (List String)) ≠ .ok ["a", "b"] :=
  ⟨rfl, rfl, by simp⟩

/-- C3 (amended): for every successfully normalized list of documents,
`ParseRecursive` returns the first element of each document's content
list, in document order, omitting every document whose content list is
absent or empty, with no empty-string placeholder. -/
theorem parseRecursive_first_content (docs : List (List (String × JsonValue)))
    (m : List (List (String × List String))) (h : metaRecursive docs = .ok m) :
    parseRecursive docs = .ok (m.filterMap (fun d => (getField d XTIKAContent).head?)) := by
  have hfun : contentOf = fun d => (getField d XTIKAContent).head? := by
    funext d
    unfold contentOf
    cases getField d XTIKAContent <;> rfl
  simp [parseRecursive, h, ← hfun]

/-- Witness for C3's amended claim: a document without the content field
is omitted and the next document contributes its first content string. -/
theorem parseRecursive_first_content_witness :
    metaRecursive [[("other_key", JsonValue.str "x")], [(XTIKAContent, JsonValue.str "t")]] =
      .ok [[("other_key", ["x"])], [(XTIKAContent, ["t"])]] ∧
    parseRecursive [[("other_key", JsonValue.str "x")], [(XTIKAContent, JsonValue.str "t")]] =
      .ok ["t"] :=
  ⟨rfl, parseRecursive_first_content
    [[("other_key", JsonValue.str "x")], [(XTIKAContent, JsonValue.str "t")]]
    [[("other_key", ["x"])], [(XTIKAContent, ["t"])]] rfl⟩

/-- C10: a field holding an empty JSON array normalizes successfully to
an empty list with its key present in the output document, and when that
field is the content field, `ParseRecursive` omits the document's
contribution entirely. -/
theorem metaRecursive_emptyArray (docs : List (List (String × JsonValue)))
    (m : List (List (String × List String))) (i : Nat) (k : String)
    (hok : metaRecursive docs = .ok m) (hi : i < docs.length)
    (hk : assocLookup (docs.get ⟨i, hi⟩) k = some (.arr [])) :
    ∃ hm : i < m.length,
      assocLookup (m.get ⟨i, hm⟩) k = some ([] : List String) ∧
      (k = XTIKAContent →
        parseRecursive docs =
          .ok ((m.take i).filterMap contentOf ++ (m.drop (i + 1)).filterMap contentOf)) := by
  obtain ⟨hwf, hm_eq⟩ := metaRecursive_ok_inv docs m hok
  have hm : i < m.length := by simpa [hm_eq] using hi
  have hget : m.get ⟨i, hm⟩ = (docs.get ⟨i, hi⟩).map (fun kv => (kv.1, normValue kv.2)) := by
    subst hm_eq
    simp [List.get_eq_getElem, List.getElem_map]
  have hlook : assocLookup (m.get ⟨i, hm⟩) k = some ([] : List String) := by
    rw [hget, assocLookup_map, hk]
    rfl
  refine ⟨hm, hlook, fun hkc => ?_⟩
  have hcontent : contentOf (m.get ⟨i, hm⟩) = none := by
    unfold contentOf
    have : getField (m.get ⟨i, hm⟩) XTIKAContent = [] := by
      unfold getField
      rw [← hkc, hlook]
      rfl
    rw [this]
  simp only [parseRecursive, hok]
  rw [filterMap_eq_of_none contentOf m i hm hcontent]

/-- Witness for C10: a leading document whose content field is the empty
array is present in the normalized output but contributes nothing to the
recursive-parse result. -/
theorem metaRecursive_emptyArray_witness :
    metaRecursive [[(XTIKAContent, JsonValue.arr [])], [(XTIKAContent, JsonValue.str "b")]] =
      .ok [[(XTIKAContent, ([] : List String))], [(XTIKAContent, ["b"])]] ∧
    parseRecursive [[(XTIKAContent, JsonValue.arr [])], [(XTIKAContent, JsonValue.str "b")]] =
      .ok ["b"] := by
  refine ⟨rfl, ?_⟩
  obtain ⟨hm, hlook, homit⟩ := metaRecursive_emptyArray
    [[(XTIKAContent, JsonValue.arr [])], [(XTIKAContent, JsonValue.str "b")]]
    [[(XTIKAContent, ([] : List String))], [(XTIKAContent, ["b"])]] 0 XTIKAContent
    rfl (by decide) rfl
  simpa using homit rfl

/-! ## The HTTP client (src/tika/tika.go lines 29-44 and 90-111)

The network is embedded as a function from the request's method and full
URL to a transport-level result, modelling the observable behavior of an
`*http.Client`'s `Do` method. -/

/-- The part of an `*http.Response` the client inspects: the status code
and the bytes of the body. -/
structure HttpResponse where
  statusCode : Int
  body : String

/-- Outcome of `httpClient.Do`: a response, or a transport error
(connection refused, DNS failure, ...). -/
inductive TransportResult where
  | ok (resp : HttpResponse)
  | err (msg : String)

/-- The behavior of an HTTP transport handle: method and full URL to
transport result. -/
abbrev HttpTransport := String → String → TransportResult

/-- Models `http.DefaultClient`: a fixed transport handle. Its concrete
behavior depends on the ambient network and is irrelevant to the theorems
below, which only observe which handle the `Client` stores. -/
def defaultHttpClient : HttpTransport := fun _ _ => .err "connection refused"

/-- `Client` (src/tika/tika.go lines 30-38): the base URL and an optional
HTTP transport handle (`nil` maps to `none`). -/
structure Client where
  url : String
  httpClient : Option HttpTransport

/-- `NewClient` (src/tika/tika.go lines 42-44). -/
def NewClient (httpClient : Option HttpTransport) (urlString : String) : Client :=
  ⟨urlString, httpClient⟩

/-- `call` (src/tika/tika.go lines 90-111), state-passing because the
method lazily replaces a nil `httpClient` with the default client before
doing anything else. `reqErr` models the outcome of
`http.NewRequest(method, c.url+path, input)` (URL/method parsing is not
embedded); when it is `some`, `call` returns that error after the
defaulting step. A non-2xx status yields the error built at line 107,
`fmt.Errorf("response code %v", resp.StatusCode)`, without reading the
body. -/
def Client.call (c : Client) (reqErr : Option String) (method path : String) :
    Client × Except String String :=
  let c1 : Client :=
    match c.httpClient with
    | none => ⟨c.url, some defaultHttpClient⟩
    | some _ => c
  match reqErr with
  | some e => (c1, .error e)
  | none =>
    match (c1.httpClient.getD defaultHttpClient) method (c1.url ++ path) with
    | .err m => (c1, .error m)
    | .ok resp =>
      if resp.statusCode < 200 || resp.statusCode > 299 then
        (c1, .error ("response code " ++ toString resp.statusCode))
      else (c1, .ok resp.body)

/-- Modelled from the spec: the `ClientError` value of the context-based
client generation, whose implementation is not under `src/` (only its
tests are, src/unnamed/part_004 lines 200-213): it "carries the HTTP
status code and response body snippet when a call fails with a non-2xx
response". -/
structure ClientError where
  statusCode : Int
  body : String

/-- Errors of the spec-modelled `call`: request-construction errors and
transport errors are distinct from protocol-level `ClientError`s. -/
inductive CallError where
  | request (msg : String)
  | transport (msg : String)
  | client (e : ClientError)

/-- Modelled from the spec: the `call()` request primitive of the
context-based client generation, absent from `src/` (only its tests are
present). Per the spec it "treats any response status outside [200,299]
as a `ClientError{statusCode, body}` — the body is still read and
attached for diagnostics even on failure". The transport handle is passed
explicitly; `reqErr` models request construction as in `Client.call`. -/
def callCtx (t : HttpTransport) (c : Client) (reqErr : Option String)
    (method path : String) : Except CallError String :=
  match reqErr with
  | some e => .error (.request e)
  | none =>
    match t method (c.url ++ path) with
    | .err m => .error (.transport m)
    | .ok resp =>
      if resp.statusCode < 200 || resp.statusCode > 299 then
        .error (.client ⟨resp.statusCode, resp.body⟩)
      else .ok resp.body

/-! ## The readiness poller `waitForStart`
(src/unnamed/part_001 lines 97-111, identical in src/unnamed/part_002)

The current generation of the poller creates a 500ms ticker and loops on
`select`: a tick triggers one `Version` health request, returning nil on
the first success; `ctx.Done()` ends the loop with `ctx.Err()`. Time is
discretized in milliseconds: the ticker fires at `attemptTime k` for
attempt `k = 0, 1, ...`, and the context deadline fires at `deadlineMs`;
a tick strictly before the deadline wins the select. The outcome of the
`k`-th `Version` request is the input function `versionOk`. -/

/-- The ticker interval: `time.NewTicker(500 * time.Millisecond)`. -/
def tickIntervalMs : Nat := 500

/-- The instant of the `k`-th health request (the ticker first fires one
full interval after creation). -/
def attemptTime (k : Nat) : Nat := tickIntervalMs * (k + 1)

/-- Result of the polling loop: `ready n` models returning nil after `n`
`Version` attempts in total; `ctxDone n` models returning `ctx.Err()`
(the cancellation reason) after `n` failed attempts. -/
inductive PollOutcome where
  | ready (attempts : Nat)
  | ctxDone (attempts : Nat)
deriving Repr, DecidableEq

/-- The `for/select` loop: `n` ticks remain before the deadline, `k`
attempts have been made. -/
def pollLoop (versionOk : Nat → Bool) : Nat → Nat → PollOutcome
  | 0, k => .ctxDone k
  | n + 1, k => if versionOk k then .ready (k + 1) else pollLoop versionOk n (k + 1)

/-- How many ticker firings happen strictly before the deadline. -/
def numTicks (deadlineMs : Nat) : Nat := (deadlineMs - 1) / tickIntervalMs

/-- `waitForStart` (src/unnamed/part_001 lines 97-111): poll once per
tick until a `Version` request succeeds or the context deadline fires. -/
def waitForStart (versionOk : Nat → Bool) (deadlineMs : Nat) : PollOutcome :=
  pollLoop versionOk (numTicks deadlineMs) 0

/-! ## The launcher `Start` (src/unnamed/part_003 lines 111-136)

The server launcher generation that spawns the Java process with
`exec.CommandContext` under a cancellable context: calling `cancel()`
kills the spawned process (best-effort). The embedding records the
observable effects: whether the process was started, whether it was
killed, and the returned error. -/

/-- The environment of one `Start` invocation: outcomes of the fallible
steps and the bytes readable from the stderr pipe. -/
structure StartEnv where
  stderrPipeErr : Option String
  startErr : Option String
  pollErr : Option String
  stderrBytes : String
  stderrReadErr : Option String

/-- The observable outcome of `Start`. -/
structure StartOutcome where
  processStarted : Bool
  processKilled : Bool
  result : Except String Unit

/-- `Start` (src/unnamed/part_003 lines 111-136): pipe stderr, start the
process, poll for readiness; on poll failure call `cancel()` (killing the
process spawned with `exec.CommandContext`), read stderr and return an
error embedding the poll failure and the stderr text. The read-error
branch reproduces the source's formatting of the poll error (the Go code
formats the shadowed `err`, not `readErr`). -/
def serverStart (env : StartEnv) : StartOutcome :=
  match env.stderrPipeErr with
  | some e => ⟨false, false, .error e⟩
  | none =>
    match env.startErr with
    | some e => ⟨false, false, .error e⟩
    | none =>
      match env.pollErr with
      | none => ⟨true, false, .ok ()⟩
      | some reason =>
        match env.stderrReadErr with
        | some _ => ⟨true, true, .error ("error reading stderr: " ++ reason)⟩
        | none => ⟨true, true, .error ("error starting server: " ++ reason ++
            "\nserver stderr:\n\n" ++ env.stderrBytes)⟩

/-! ## DownloadServer (src/tika/server.go lines 165-230)

The filesystem is embedded as a function from path to optional content;
the MD5 function is a parameter (the hash itself is an external
primitive); the network is the outcome of the single `ctxhttp.Get` the
function can perform. `os.Create` and `os.Remove` are modelled as
succeeding (their failure branches only change the error message). -/

/-- The pinned-hash table of src/tika/server.go lines 192-194; a Go map
read of an absent key yields the zero value `""`. -/
def md5s (v : String) : String :=
  if v == "1.14" then "39055fc71358d774b9da066f80b1141c" else ""

/-- The fixed remote location (src/tika/server.go line 211). -/
def downloadURL (v : String) : String :=
  "http://search.maven.org/remotecontent?filepath=org/apache/tika/tika-server/" ++
    v ++ "/tika-server-" ++ v ++ ".jar"

/-- `validateFileMD5` (src/tika/server.go lines 165-178): false when the
file cannot be opened, otherwise compare the file's MD5 to `wantH`. -/
def validateFileMD5 (md5 : String → String) (fs : String → Option String)
    (path wantH : String) : Bool :=
  match fs path with
  | none => false
  | some content => md5 content == wantH

/-- The observable outcome of `DownloadServer`: the final filesystem,
whether a network fetch was performed, and the returned error. -/
structure DLOutcome where
  fs : String → Option String
  fetched : Bool
  result : Except String Unit

/-- `DownloadServer` (src/tika/server.go lines 191-230): reject versions
with no pinned hash; short-circuit when the file exists with a matching
hash; otherwise create (truncate) the file, fetch, copy, and re-validate,
removing the file and failing on a hash mismatch. `net` is the outcome of
`ctxhttp.Get` on `downloadURL version`. -/
def DownloadServer (md5 : String → String) (net : Except String String)
    (version path : String) (fs : String → Option String) : DLOutcome :=
  let wantH := md5s version
  if wantH == "" then
    ⟨fs, false, .error ("unsupported Tika version: " ++ version)⟩
  else if (fs path).isSome && validateFileMD5 md5 fs path wantH then
    ⟨fs, false, .ok ()⟩
  else
    let fs1 := fun p => if p == path then some "" else fs p
    match net with
    | .error e =>
      ⟨fs1, true, .error ("unable to download \"" ++ downloadURL version ++ "\": " ++ e)⟩
    | .ok body =>
      let fs2 := fun p => if p == path then some body else fs p
      if validateFileMD5 md5 fs2 path wantH then ⟨fs2, true, .ok ()⟩
      else ⟨fun p => if p == path then none else fs2 p, true, .error "invalid md5"⟩

/-! ## Client lemmas -/

/-- The client state after `call`: unchanged when a transport handle was
stored, otherwise the default client has been installed. -/
theorem call_fst (c : Client) (reqErr : Option String) (method path : String) :
    (c.call reqErr method path).1 =
      match c.httpClient with
      | none => ⟨c.url, some defaultHttpClient⟩
      | some _ => c := by
  obtain ⟨url, oc⟩ := c
  cases oc with
  | none =>
    cases reqErr with
    | some e => rfl
    | none =>
      show (match defaultHttpClient method (url ++ path) with
        | .err m => ((⟨url, some defaultHttpClient⟩ : Client), Except.error m)
        | .ok resp =>
          if resp.statusCode < 200 || resp.statusCode > 299 then
            ((⟨url, some defaultHttpClient⟩ : Client),
              Except.error ("response code " ++ toString resp.statusCode))
          else ((⟨url, some defaultHttpClient⟩ : Client), Except.ok resp.body)).1 = _
      cases defaultHttpClient method (url ++ path) with
      | err m => rfl
      | ok resp =>
        by_cases h : (resp.statusCode < 200 || resp.statusCode > 299) = true <;> simp [h]
  | some t =>
    cases reqErr with
    | some e => rfl
    | none =>
      show (match t method (url ++ path) with
        | .err m => ((⟨url, some t⟩ : Client), Except.error m)
        | .ok resp =>
          if resp.statusCode < 200 || resp.statusCode > 299 then
            ((⟨url, some t⟩ : Client),
              Except.error ("response code " ++ toString resp.statusCode))
          else ((⟨url, some t⟩ : Client), Except.ok resp.body)).1 = _
      cases t method (url ++ path) with
      | err m => rfl
      | ok resp =>
        by_cases h : (resp.statusCode < 200 || resp.statusCode > 299) = true <;> simp [h]

/-! ## Claim theorems: HTTP client -/

/-- C4: the context-based `call` (spec-modelled, implementation absent
from `src/`) turns every response with a status outside [200,299] into an
error carrying both that status code and the full text of the response
body. -/
theorem callCtx_non2xx_clientError (t : HttpTransport) (c : Client)
    (method path : String) (resp : HttpResponse)
    (hresp : t method (c.url ++ path) = .ok resp)
    (hcode : resp.statusCode < 200 ∨ resp.statusCode > 299) :
    callCtx t c none method path = .error (.client ⟨resp.statusCode, resp.body⟩) := by
  unfold callCtx
  rw [hresp]
  have hb : (resp.statusCode < 200 || resp.statusCode > 299) = true := by
    rcases hcode with h | h <;> simp [h]
  simp [hb]

/-- Witness for C4: a 500 response with body text yields the ClientError
carrying 500 and that text. -/
theorem callCtx_non2xx_clientError_witness :
    ((fun _ _ => TransportResult.ok ⟨500, "Internal Server Error"⟩ : HttpTransport)
        "PUT" ("http://localhost:9998" ++ "/rmeta/text") = .ok ⟨500, "Internal Server Error"⟩) ∧
    ((500 : Int) < 200 ∨ (500 : Int) > 299) ∧
    callCtx (fun _ _ => .ok ⟨500, "Internal Server Error"⟩) ⟨"http://localhost:9998", none⟩
        none "PUT" "/rmeta/text" = .error (.client ⟨500, "Internal Server Error"⟩) :=
  ⟨rfl, Or.inr (by norm_num),
    callCtx_non2xx_clientError (fun _ _ => .ok ⟨500, "Internal Server Error"⟩)
      ⟨"http://localhost:9998", none⟩ "PUT" "/rmeta/text" ⟨500, "Internal Server Error"⟩
      rfl (Or.inr (by norm_num))⟩

/-- Counterexample to C8: a `Client` created with a nil `httpClient` does
not keep its stored fields across `call` — line 92 of src/tika/tika.go
overwrites the nil transport handle with the default client. -/
theorem call_mutates_nil_httpClient :
    (Client.call ⟨"http://localhost:9998", none⟩ none "GET" "/version").1.httpClient ≠
      (⟨"http://localhost:9998", none⟩ : Client).httpClient := by
  intro hcontra
  rw [call_fst] at hcontra
  exact Option.noConfusion hcontra

/-- C8 (amended): for every `Client` whose transport handle is non-nil,
`call` leaves both stored fields (base URL and transport handle)
unchanged; the base URL is unchanged for every `Client`. A nil transport
handle, however, is replaced by the default HTTP client on the first
call. -/
theorem call_preserves_fields (c : Client) (t : HttpTransport)
    (reqErr : Option String) (method path : String) (h : c.httpClient = some t) :
    (c.call reqErr method path).1 = c ∧
    (∀ c2 : Client, (c2.call reqErr method path).1.url = c2.url) := by
  constructor
  · rw [call_fst, h]
  · intro c2
    rw [call_fst]
    cases hc : c2.httpClient <;> rfl

/-- Witness for C8's amended claim: a client holding a transport handle
is returned unchanged. -/
theorem call_preserves_fields_witness :
    (⟨"http://localhost:9998", some defaultHttpClient⟩ : Client).httpClient =
        some defaultHttpClient ∧
    (Client.call ⟨"http://localhost:9998", some defaultHttpClient⟩ none "GET" "/version").1 =
      ⟨"http://localhost:9998", some defaultHttpClient⟩ :=
  ⟨rfl, (call_preserves_fields ⟨"http://localhost:9998", some defaultHttpClient⟩
    defaultHttpClient none "GET" "/version" rfl).1⟩

/-! ## Poller lemmas -/

/-- The `k`-th tick happens strictly before the deadline exactly when `k`
is below the tick budget. -/
theorem attemptTime_lt_iff (k deadlineMs : Nat) :
    attemptTime k < deadlineMs ↔ k < numTicks deadlineMs := by
  unfold attemptTime numTicks tickIntervalMs
  omega

/-- Reaching the first succeeding attempt: the loop returns success right
there, after exactly `k0 + 1` attempts. -/
theorem pollLoop_first_success (versionOk : Nat → Bool) :
    ∀ (n k k0 : Nat), k ≤ k0 → k0 < k + n →
      (∀ j, k ≤ j → j < k0 → versionOk j = false) → versionOk k0 = true →
      pollLoop versionOk n k = .ready (k0 + 1)
  | 0, k, k0, hk, hlt, _, _ => absurd hlt (by omega)
  | n + 1, k, k0, hk, hlt, hfail, hok => by
    by_cases h : versionOk k = true
    · have hkk : k = k0 := by
        by_contra hne
        have hlt2 : k < k0 := lt_of_le_of_ne hk hne
        exact absurd h (by simp [hfail k le_rfl hlt2])
      subst hkk
      simp [pollLoop, h]
    · have hkk : k < k0 := by
        rcases Nat.lt_or_ge k k0 with h2 | h2
        · exact h2
        · exact absurd (Nat.le_antisymm hk h2 ▸ hok) h
      have ih := pollLoop_first_success versionOk n (k + 1) k0 (by omega) (by omega)
        (fun j hj1 hj2 => hfail j (by omega) hj2) hok
      simp [pollLoop, h, ih]

/-- When every attempt in the budget fails, the loop runs out of ticks
and ends in the context-done branch. -/
theorem pollLoop_all_fail (versionOk : Nat → Bool) :
    ∀ (n k : Nat), (∀ j, j < k + n → versionOk j = false) →
      pollLoop versionOk n k = .ctxDone (k + n)
  | 0, k, _ => by simp [pollLoop]
  | n + 1, k, hfail => by
    have hk : versionOk k = false := hfail k (by omega)
    have ih := pollLoop_all_fail versionOk n (k + 1) (fun j hj => hfail j (by omega))
    have harith : k + 1 + n = k + (n + 1) := by omega
    rw [harith] at ih
    simp [pollLoop, hk, ih]

/-! ## Claim theorems: readiness poller and launcher -/

/-- C5: the poller issues health requests at a fixed 500ms interval
(attempt `j+1` exactly `tickIntervalMs` after attempt `j`, with
`tickIntervalMs = 500`), and returns success on the first succeeding
attempt, having performed exactly `k0 + 1` attempts — none after the
success. -/
theorem waitForStart_first_success (versionOk : Nat → Bool) (deadlineMs k0 : Nat)
    (hfail : ∀ j, j < k0 → versionOk j = false) (hok : versionOk k0 = true)
    (hlt : attemptTime k0 < deadlineMs) :
    waitForStart versionOk deadlineMs = .ready (k0 + 1) ∧
    (∀ j, attemptTime (j + 1) = attemptTime j + tickIntervalMs) ∧
    tickIntervalMs = 500 := by
  refine ⟨?_, fun j => by unfold attemptTime; ring, rfl⟩
  have hk0 : k0 < numTicks deadlineMs := (attemptTime_lt_iff k0 deadlineMs).mp hlt
  exact pollLoop_first_success versionOk (numTicks deadlineMs) 0 k0 (Nat.zero_le _)
    (by omega) (fun j _ hj => hfail j hj) hok

/-- Witness for C5: with the first two health checks failing and the
third succeeding before a 2000ms deadline, the poller stops after exactly
three attempts. -/
theorem waitForStart_first_success_witness :
    (∀ j, j < 2 → (fun k => k == 2) j = false) ∧ ((fun k => k == 2) 2 = true) ∧
    attemptTime 2 < 2000 ∧
    waitForStart (fun k => k == 2) 2000 = .ready 3 := by
  refine ⟨by decide, by decide, by decide, ?_⟩
  exact (waitForStart_first_success (fun k => k == 2) 2000 2
    (by decide) (by decide) (by decide)).1

/-- C6: when no attempt succeeds before the deadline, the poller returns
`ctx.Err()` — the cancellation reason branch of the select — and never
returns success. -/
theorem waitForStart_all_fail_ctxErr (versionOk : Nat → Bool) (deadlineMs : Nat)
    (hfail : ∀ k, attemptTime k < deadlineMs → versionOk k = false) :
    waitForStart versionOk deadlineMs = .ctxDone (numTicks deadlineMs) ∧
    (∀ n, waitForStart versionOk deadlineMs ≠ .ready n) := by
  have h := pollLoop_all_fail versionOk (numTicks deadlineMs) 0
    (fun j hj => hfail j ((attemptTime_lt_iff j deadlineMs).mpr (by omega)))
  have h0 : waitForStart versionOk deadlineMs = .ctxDone (numTicks deadlineMs) := by
    unfold waitForStart
    simpa using h
  exact ⟨h0, fun n hn => by rw [h0] at hn; exact PollOutcome.noConfusion hn⟩

/-- Witness for C6: a server that never responds makes the poller run all
three attempts that fit in a 1700ms deadline and end with the
cancellation reason. -/
theorem waitForStart_all_fail_ctxErr_witness :
    (∀ k, attemptTime k < 1700 → (fun _ : Nat => false) k = false) ∧
    waitForStart (fun _ => false) 1700 = .ctxDone 3 :=
  ⟨fun _ _ => rfl, (waitForStart_all_fail_ctxErr (fun _ => false) 1700 (fun _ _ => rfl)).1⟩

/-- C7: when the spawned process does not become ready, the launcher
kills it (the `cancel()` of the `exec.CommandContext` context) and
returns an error embedding both the poller's failure reason and the
captured stderr of the process. -/
theorem serverStart_poll_failure_kills_and_reports (env : StartEnv) (reason : String)
    (h1 : env.stderrPipeErr = none) (h2 : env.startErr = none)
    (h3 : env.pollErr = some reason) (h4 : env.stderrReadErr = none) :
    (serverStart env).processStarted = true ∧
    (serverStart env).processKilled = true ∧
    (serverStart env).result = .error ("error starting server: " ++ reason ++
      "\nserver stderr:\n\n" ++ env.stderrBytes) ∧
    (∃ pre mid, "error starting server: " ++ reason ++ "\nserver stderr:\n\n" ++
      env.stderrBytes = pre ++ reason ++ mid ++ env.stderrBytes) := by
  simp only [serverStart, h1, h2, h3, h4]
  exact ⟨trivial, trivial, trivial, "error starting server: ", "\nserver stderr:\n\n", rfl⟩

/-- Witness for C7: a readiness timeout with captured stderr produces a
kill and the dual-channel error. -/
theorem serverStart_poll_failure_kills_and_reports_witness :
    ((⟨none, none, some "context deadline exceeded", "WARNING: port in use", none⟩ :
        StartEnv).pollErr = some "context deadline exceeded") ∧
    (serverStart ⟨none, none, some "context deadline exceeded",
        "WARNING: port in use", none⟩).processKilled = true ∧
    (serverStart ⟨none, none, some "context deadline exceeded",
        "WARNING: port in use", none⟩).result =
      .error ("error starting server: " ++ "context deadline exceeded" ++
        "\nserver stderr:\n\n" ++ "WARNING: port in use") :=
  ⟨rfl,
    (serverStart_poll_failure_kills_and_reports
      ⟨none, none, some "context deadline exceeded", "WARNING: port in use", none⟩
      "context deadline exceeded" rfl rfl rfl rfl).2.1,
    (serverStart_poll_failure_kills_and_reports
      ⟨none, none, some "context deadline exceeded", "WARNING: port in use", none⟩
      "context deadline exceeded" rfl rfl rfl rfl).2.2.1⟩

/-! ## Claim theorem: DownloadServer -/

/-- C9: (a) an existing file whose hash matches the pinned hash
short-circuits: success, no fetch, filesystem untouched; (b) a downloaded
body whose hash mismatches is removed from disk and reported as an error
(after a fetch); (c) a version with no pinned hash is rejected as
unsupported without fetching. -/
theorem DownloadServer_hash_discipline :
    (∀ (md5 : String → String) (net : Except String String) (v path : String)
        (fs : String → Option String) (content : String),
      md5s v ≠ "" → fs path = some content → md5 content = md5s v →
      DownloadServer md5 net v path fs = ⟨fs, false, .ok ()⟩) ∧
    (∀ (md5 : String → String) (v path : String) (fs : String → Option String)
        (body : String),
      md5s v ≠ "" → validateFileMD5 md5 fs path (md5s v) = false → md5 body ≠ md5s v →
      (DownloadServer md5 (.ok body) v path fs).result = .error "invalid md5" ∧
      (DownloadServer md5 (.ok body) v path fs).fs path = none ∧
      (DownloadServer md5 (.ok body) v path fs).fetched = true) ∧
    (∀ (md5 : String → String) (net : Except String String) (v path : String)
        (fs : String → Option String),
      md5s v = "" →
      DownloadServer md5 net v path fs =
        ⟨fs, false, .error ("unsupported Tika version: " ++ v)⟩) := by
  refine ⟨?_, ?_, ?_⟩
  · intro md5 net v path fs content hv hfs hmd5
    unfold DownloadServer
    have h1 : (md5s v == "") = false := by simp [hv]
    have h2 : validateFileMD5 md5 fs path (md5s v) = true := by
      unfold validateFileMD5
      rw [hfs]
      simp [hmd5]
    simp [h1, h2, hfs]
  · intro md5 v path fs body hv hvf hbody
    unfold DownloadServer
    have h1 : (md5s v == "") = false := by simp [hv]
    have h2 : ((fs path).isSome && validateFileMD5 md5 fs path (md5s v)) = false := by
      simp [hvf]
    have h3 : validateFileMD5 md5 (fun p => if p = path then some body else fs p)
        path (md5s v) = false := by
      unfold validateFileMD5
      simp [hbody]
    simp [h1, h2, h3, hv, hvf]
  · intro md5 net v path fs hv
    unfold DownloadServer
    simp [hv]

/-- Witness for C9: a matching pre-existing file short-circuits; a bad
download is removed and rejected; an unpinned version is rejected without
fetching. -/
theorem DownloadServer_hash_discipline_witness :
    (md5s "1.14" ≠ "" ∧ md5s "2.0" = "") ∧
    DownloadServer (fun c => if c == "GOODJAR" then "39055fc71358d774b9da066f80b1141c"
        else "deadbeef") (.error "no network") "1.14" "tika-server-1.14.jar"
        (fun p => if p == "tika-server-1.14.jar" then some "GOODJAR" else none) =
      ⟨fun p => if p == "tika-server-1.14.jar" then some "GOODJAR" else none,
        false, .ok ()⟩ ∧
    (DownloadServer (fun c => if c == "GOODJAR" then "39055fc71358d774b9da066f80b1141c"
        else "deadbeef") (.ok "BADJAR") "1.14" "tika-server-1.14.jar" (fun _ => none)).result =
      .error "invalid md5" ∧
    (DownloadServer (fun c => if c == "GOODJAR" then "39055fc71358d774b9da066f80b1141c"
        else "deadbeef") (.ok "BADJAR") "1.14" "tika-server-1.14.jar"
        (fun _ => none)).fs "tika-server-1.14.jar" = none ∧
    DownloadServer (fun c => if c == "GOODJAR" then "39055fc71358d774b9da066f80b1141c"
        else "deadbeef") (.error "no network") "2.0" "tika-server-2.0.jar" (fun _ => none) =
      ⟨fun _ => none, false, .error ("unsupported Tika version: " ++ "2.0")⟩ := by
  refine ⟨⟨by decide, rfl⟩, ?_, ?_, ?_, ?_⟩
  · exact DownloadServer_hash_discipline.1
      (fun c => if c == "GOODJAR" then "39055fc71358d774b9da066f80b1141c" else "deadbeef")
      (.error "no network") "1.14" "tika-server-1.14.jar"
      (fun p => if p == "tika-server-1.14.jar" then some "GOODJAR" else none)
      "GOODJAR" (by decide) rfl rfl
  · exact (DownloadServer_hash_discipline.2.1
      (fun c => if c == "GOODJAR" then "39055fc71358d774b9da066f80b1141c" else "deadbeef")
      "1.14" "tika-server-1.14.jar" (fun _ => none) "BADJAR"
      (by decide) rfl (by decide)).1
  · exact (DownloadServer_hash_discipline.2.1
      (fun c => if c == "GOODJAR" then "39055fc71358d774b9da066f80b1141c" else "deadbeef")
      "1.14" "tika-server-1.14.jar" (fun _ => none) "BADJAR"
      (by decide) rfl (by decide)).2.1
  · exact DownloadServer_hash_discipline.2.2
      (fun c => if c == "GOODJAR" then "39055fc71358d774b9da066f80b1141c" else "deadbeef")
      (.error "no network") "2.0" "tika-server-2.0.jar" (fun _ => none) rfl

end GoTika
